import Mathlib

/-!
Shallow embedding of `lfs/util.go` (progress-observing copy wrapper,
progress-log callback factory, and the include/exclude path filter),
together with theorems settling the specification claims about it.

Modelling conventions:
* Go `error` values are `Option GoError` (`none` = nil error); `io.EOF` is
  the distinguished constructor `GoError.eof`.
* Go `int`/`int64` byte counts are `Int`; the count returned by a single
  `Read` is a `Nat` (the `io.Reader` contract gives `0 ≤ n`).
* The embedding models the Linux build of the package: `runtime.GOOS`
  is not `"windows"`, so `IsWindows` is `false` and the Windows-only
  re-match branches are inert, exactly as in the compiled Linux code.
* File-system outcomes (success or failure of `file.Write` / `file.Sync`)
  are environment inputs, passed in explicitly.
-/

namespace LfsUtil

/-- Go `error` values: `eof` is `io.EOF`, `mk msg` any other error whose
`Error()` text is `msg`. -/
inductive GoError where
  | eof
  | mk (msg : String)
deriving DecidableEq, Repr

/-- Go `err.Error()`: the text of the error (`io.EOF.Error() = "EOF"`). -/
def GoError.message : GoError → String
  | .eof => "EOF"
  | .mk msg => msg

/-! ### Platform path helpers (Go `path/filepath`, Unix rules) -/

/-- Go `runtime.GOOS == "windows"` (the body of `IsWindows` in util.go).
The embedding models the Linux build, where this is `false`. -/
def IsWindows : Bool := false

/-- Split a character list on the path separator `'/'`
(helper for `cleanList`). -/
def splitOnSep (cs : List Char) : List (List Char) :=
  match cs with
  | [] => [[]]
  | c :: rest =>
    match splitOnSep rest with
    | [] => [[]]
    | g :: gs => if c = '/' then [] :: g :: gs else (c :: g) :: gs

/-- Process one path component in `filepath.Clean`'s element loop:
empty and `"."` components vanish, `".."` pops the last real component
(except that a rooted path cannot pop above the root and an unrooted path
keeps leading `".."` components), anything else is kept. -/
def cleanPush (rooted : Bool) (stack : List (List Char)) (comp : List Char) :
    List (List Char) :=
  if comp = [] ∨ comp = ['.'] then stack
  else if comp = ['.', '.'] then
    match stack with
    | [] => if rooted then [] else [['.', '.']]
    | top :: restStack =>
      if top = ['.', '.'] then comp :: stack else restStack
  else comp :: stack

/-- Join components with `'/'` (helper for `cleanList`). -/
def joinSep : List (List Char) → List Char
  | [] => []
  | [c] => c
  | c :: rest => c ++ '/' :: joinSep rest

/-- Go `path/filepath.Clean` on Unix, in component-stack form: empty path
cleans to `"."`; otherwise redundant separators and `"."` elements are
dropped, `".."` elements consume the preceding element where possible, and
the root is never escaped. -/
def cleanList (path : List Char) : List Char :=
  if path = [] then ['.']
  else
    let rooted := path.head? = some '/'
    let stack := (splitOnSep path).foldl (cleanPush rooted) []
    let body := joinSep stack.reverse
    if rooted then '/' :: body
    else if body = [] then ['.'] else body

/-- Go `filepath.Clean` on `String`s. -/
def filepathClean (path : String) : String := String.mk (cleanList path.toList)

/-- Go `filepath.IsAbs` on Unix: the path starts with `'/'`. -/
def filepathIsAbs (path : String) : Bool :=
  match path.toList with
  | '/' :: _ => true
  | _ => false

/-- Go `filepath.Dir` on Unix: drop the final non-separator run, then
`Clean` what is left. -/
def filepathDir (path : String) : String :=
  let cs := path.toList
  let keep := (cs.reverse.dropWhile (fun c => c ≠ '/')).reverse
  String.mk (cleanList keep)

/-! ### The progress-log callback factory (`CopyCallbackFile`) -/

/-- Outcome of one invocation's file operations inside the log callback:
whether `file.Write` failed and whether `file.Sync` failed. These are
environment inputs to the callback. -/
structure FileOps where
  writeErr : Option GoError
  syncErr : Option GoError
deriving DecidableEq, Repr

/-- State owned by the callback produced by `CopyCallbackFile`:
`prevWritten` is the captured `var prevWritten int64`; `lines` is the
sequence of lines this callback appended to the log file; `syncs` counts
the `file.Sync()` calls it made. -/
structure LogCbState where
  prevWritten : Int
  lines : List String
  syncs : Nat
deriving DecidableEq, Repr

/-- State at callback creation: `prevWritten` is zero, nothing appended. -/
def initLogCbState : LogCbState := ⟨0, [], 0⟩

/-- Go `wrapProgressError`: a non-nil error is wrapped with the event name
and the log path; a nil error stays nil. -/
def wrapProgressError (err : Option GoError) (event filename : String) :
    Option GoError :=
  match err with
  | some e => some (GoError.mk
      ("Error writing Git LFS " ++ event ++ " progress to " ++ filename ++
        ": " ++ e.message))
  | none => none

/-- The log line `fmt.Sprintf("%s %d/%d %d/%d %s\n", event, index,
totalFiles, written, total, filename)`. -/
def progressLine (event : String) (index totalFiles written total : Int)
    (filename : String) : String :=
  event ++ " " ++ toString index ++ "/" ++ toString totalFiles ++ " " ++
    toString written ++ "/" ++ toString total ++ " " ++ filename ++ "\n"

/-- One invocation of the callback closure built by `CopyCallbackFile`:
if `written` differs from `prevWritten` it writes one formatted line
(appended only when the write succeeds), calls `file.Sync()` whose result
the code discards, sets `prevWritten := written`, and returns the wrapped
write error; otherwise it does nothing and returns nil. `current` is the
callback's third parameter, which the closure never reads. -/
def copyCallbackFileCb (event filename : String) (index totalFiles : Int)
    (logPath : String) (ops : FileOps) (st : LogCbState)
    (total written : Int) (_current : Nat) : LogCbState × Option GoError :=
  if written ≠ st.prevWritten then
    let line := progressLine event index totalFiles written total filename
    let werr := ops.writeErr
    ({ prevWritten := written,
       lines := if werr = none then st.lines ++ [line] else st.lines,
       syncs := st.syncs + 1 },
     wrapProgressError werr event logPath)
  else (st, none)

/-- Result of the pre-I/O phase of `CopyCallbackFile`: the silent no-op
return `(nil, nil, nil)`, the absolute-path configuration error, or the
decision to proceed to `os.MkdirAll(dir)` followed by
`os.OpenFile(logPath)`. -/
inductive FactoryResult where
  | noop
  | configError (msg : String)
  | proceed (dirToCreate : String) (fileToOpen : String)
deriving DecidableEq, Repr

/-- The control flow of `CopyCallbackFile` before any file-system call:
the empty-input check (logPath from `GIT_LFS_PROGRESS`, filename, event)
returns the no-op triple first; then a non-absolute `logPath` is a
configuration error; only then does the factory touch the file system
(`MkdirAll` on `Dir(logPath)` and `OpenFile(logPath)`). -/
def copyCallbackFileSetup (logPath event filename : String) : FactoryResult :=
  if logPath.length = 0 ∨ filename.length = 0 ∨ event.length = 0 then
    .noop
  else if ¬ filepathIsAbs logPath then
    .configError "GIT_LFS_PROGRESS must be an absolute path"
  else
    .proceed (filepathDir logPath) logPath

/-! ### `CallbackReader` and `CopyWithCallback`

The underlying `io.Reader` is modelled by the script of results its
successive `Read` calls produce: a list of pairs `(n, er)` where `n` is the
byte count returned and `er` the accompanying error.  A progress callback
is a state-transition function (`CopyCallback` closures in Go may capture
mutable state, as the one built by `CopyCallbackFile` does). -/

/-- A `CopyCallback func(totalSize, readSoFar int64, readSinceLast int)
error` with explicit closure state `κ`. -/
def Cb (κ : Type) := κ → Int → Int → Nat → κ × Option GoError

/-- One callback invocation, recorded for specification purposes: the
argument triple `(totalSize, readSoFar, readSinceLast)` it was given. -/
structure CbCall where
  total : Int
  readSoFar : Int
  current : Nat
deriving DecidableEq, Repr

/-- One call of `CallbackReader.Read`, given the result `(n, er)` of the
underlying `w.Reader.Read(p)` for this call.  Mirrors util.go: `ReadSize`
is increased by `n` when `n > 0`; the callback runs only when `er` is nil
and a callback is present, and its result replaces the returned error.
Returns the new `ReadSize`, the new callback state, the error returned by
`Read`, and the callback invocation made (if any). -/
def readStep {κ : Type} (c? : Option (Cb κ)) (total : Int) (r : Int) (k : κ)
    (n : Nat) (er : Option GoError) :
    Int × κ × Option GoError × Option CbCall :=
  let r' := if n > 0 then r + (n : Int) else r
  match er, c? with
  | none, some c =>
    (r', (c k total r' n).1, (c k total r' n).2, some ⟨total, r', n⟩)
  | _, _ => (r', k, er, none)

/-- Result of running `io.Copy` over a `CallbackReader`: final `ReadSize`,
final callback state, bytes written, the callback invocations made in
order, and the error `io.Copy` returned. -/
structure CopyResult (κ : Type) where
  readSize : Int
  kfinal : κ
  written : Int
  calls : List CbCall
  err : Option GoError
deriving DecidableEq, Repr

/-- The read side of `io.Copy` driving `CallbackReader.Read`: reads are
issued one after another until a read returns a non-nil error; the bytes
of that final read are still written; `io.EOF` ends the copy cleanly while
any other error is returned.  The destination writer is assumed not to
fail (no claim concerns writer failures).  Script exhaustion plays the
role of a final `(0, io.EOF)` read. -/
def copyRun {κ : Type} (c? : Option (Cb κ)) (total : Int) :
    Int → κ → Int → List CbCall → List (Nat × Option GoError) → CopyResult κ
  | r, k, w, cs, [] => ⟨r, k, w, cs, none⟩
  | r, k, w, cs, (n, er) :: rest =>
    let s := readStep c? total r k n er
    let w' := w + (n : Int)
    let cs' := cs ++ s.2.2.2.toList
    match s.2.2.1 with
    | some e => ⟨s.1, s.2.1, w', cs', if e = .eof then none else some e⟩
    | none => copyRun c? total s.1 s.2.1 w' cs' rest

/-- Go `CopyWithCallback(writer, reader, totalSize, cb)`: with a nil
callback it is a bare `io.Copy` (whose byte accounting coincides with
`copyRun` with no callback); otherwise it copies through a fresh
`CallbackReader{C: cb, TotalSize: totalSize, Reader: reader}` whose
`ReadSize` starts at zero. -/
def CopyWithCallback {κ : Type} (c? : Option (Cb κ)) (totalSize : Int)
    (k : κ) (src : List (Nat × Option GoError)) : CopyResult κ :=
  copyRun c? totalSize 0 k 0 [] src

/-- The callback-argument trace predicted for a run of error-free reads
`L` starting from cumulative count `r`: the i-th read of `nᵢ` bytes yields
the invocation `(T, r + n₁ + ⋯ + nᵢ, nᵢ)`. -/
def callsFrom (T r : Int) : List Nat → List CbCall
  | [] => []
  | n :: L => ⟨T, r + (n : Int), n⟩ :: callsFrom T (r + (n : Int)) L

/-- A caller issuing one `CallbackReader.Read` per scripted result,
regardless of errors (unlike `io.Copy`, which stops at the first error):
returns the final `ReadSize`, the final callback state, and the callback
invocations made.  This exercises the `Read` method alone. -/
def readN {κ : Type} (c? : Option (Cb κ)) (total : Int) :
    Int → κ → List CbCall → List (Nat × Option GoError) →
    Int × κ × List CbCall
  | r, k, cs, [] => (r, k, cs)
  | r, k, cs, (n, er) :: rest =>
    let s := readStep c? total r k n er
    readN c? total s.1 s.2.1 (cs ++ s.2.2.2.toList) rest

/-- The callback-argument trace predicted for an arbitrary read script:
a read of `n` bytes with a nil error yields the invocation
`(T, cumulative-including-this-read, n)`; a read returning an error yields
no invocation, but its bytes still enter the cumulative count. -/
def callsSpecE (T r : Int) : List (Nat × Option GoError) → List CbCall
  | [] => []
  | (n, er) :: rest =>
    (match er with
     | none => [⟨T, r + (n : Int), n⟩]
     | some _ => []) ++ callsSpecE T (r + (n : Int)) rest

/-! ### Go `path/filepath.Match` (Unix rules)

Port of the standard library's chunk-based matcher that
`FilenamePassesIncludeExcludeFilter` calls: `scanChunk` splits the pattern
at unbracketed stars, `matchChunk` matches a star-free chunk literally
(with `?`, character classes, and `\\` escapes), and the star loop widens
a failed chunk match by skipping non-separator characters. -/

/-- Result of `matchChunk`: the unmatched remainder of the name on
success, a failed match, or `ErrBadPattern`. -/
inductive ChunkRes where
  | ok (rest : List Char)
  | nomatch
  | err
deriving DecidableEq, Repr

/-- Result of `Match`: the boolean answer, or `ErrBadPattern`. -/
inductive GoMatchRes where
  | ok (matched : Bool)
  | err
deriving DecidableEq, Repr

/-- Go `getEsc`: read one (possibly `\\`-escaped) class character from the
chunk; `'-'`, `']'`, an exhausted chunk, a trailing escape, or a chunk
that ends right after the character are `ErrBadPattern` (`none`). -/
def getEsc : List Char → Option (Char × List Char)
  | [] => none
  | c :: rest =>
    if c = '-' ∨ c = ']' then none
    else if c = '\\' then
      match rest with
      | [] => none
      | r :: rr => if rr = [] then none else some (r, rr)
    else if rest = [] then none
    else some (c, rest)

/-- Termination measure for the class-range loop: `getEsc` always consumes
at least one character of the chunk. -/
theorem getEsc_lt {chunk rest : List Char} {c : Char}
    (h : getEsc chunk = some (c, rest)) : rest.length < chunk.length := by
  cases chunk with
  | nil => simp [getEsc] at h
  | cons a t =>
    cases t with
    | nil =>
      simp only [getEsc] at h
      split_ifs at h <;> simp_all
    | cons b u =>
      simp only [getEsc] at h
      split_ifs at h <;> simp_all <;> omega

/-- The range-parsing loop inside `matchChunk`'s `'['` case: consume
`lo`(-`hi`) ranges, accumulating whether the name character `r` fell in
any of them, until an unescaped `']'` closes a non-empty class. -/
def matchRanges (r : Char) (chunk : List Char) (m : Bool) (nrange : Nat) :
    Option (Bool × List Char) :=
  if chunk.head? = some ']' ∧ 0 < nrange then
    some (m, chunk.tail)
  else
    match hg : getEsc chunk with
    | none => none
    | some (lo, chunk1) =>
      if chunk1.head? = some '-' then
        match hg2 : getEsc chunk1.tail with
        | none => none
        | some (hi, chunk2) =>
          matchRanges r chunk2 (m || decide (lo ≤ r ∧ r ≤ hi)) (nrange + 1)
      else
        matchRanges r chunk1 (m || decide (lo ≤ r ∧ r ≤ lo)) (nrange + 1)
termination_by chunk.length
decreasing_by
  · have h1 := getEsc_lt hg
    have h2 := getEsc_lt hg2
    have h3 : chunk1.tail.length ≤ chunk1.length := by
      cases chunk1 <;> simp
    omega
  · exact getEsc_lt hg

/-- Go `matchChunk`: match a star-free chunk against the head of `s`.
Each successful step consumes exactly one character of `s`. -/
def matchChunk : List Char → List Char → ChunkRes
  | [], s => .ok s
  | _ :: _, [] => .nomatch
  | c :: crest, sc :: srest =>
    if c = '[' then
      let negated := crest.head? = some '^'
      let chunk0 := if crest.head? = some '^' then crest.tail else crest
      match matchRanges sc chunk0 false 0 with
      | none => .err
      | some (m, chunk2) =>
        if m = negated then .nomatch
        else matchChunk chunk2 srest
    else if c = '?' then
      if sc = '/' then .nomatch else matchChunk crest srest
    else if c = '\\' then
      match crest with
      | [] => .err
      | c2 :: crest2 => if c2 = sc then matchChunk crest2 srest else .nomatch
    else if c = sc then matchChunk crest srest
    else .nomatch
termination_by _c s => s.length
decreasing_by all_goals simp

/-- Go `scanChunk`'s `Scan` loop: copy pattern characters into the chunk
(keeping `\\`-escapes together and tracking bracket classes) until an
unbracketed `'*'` stops the scan. -/
def scanChunkCore : Bool → List Char → List Char × List Char
  | _, [] => ([], [])
  | inrange, c :: rest =>
    if c = '\\' then
      match rest with
      | [] => ([c], [])
      | c2 :: rest2 =>
        (c :: c2 :: (scanChunkCore inrange rest2).1,
         (scanChunkCore inrange rest2).2)
    else if c = '[' then
      (c :: (scanChunkCore true rest).1, (scanChunkCore true rest).2)
    else if c = ']' then
      (c :: (scanChunkCore false rest).1, (scanChunkCore false rest).2)
    else if c = '*' ∧ inrange = false then
      ([], c :: rest)
    else
      (c :: (scanChunkCore inrange rest).1, (scanChunkCore inrange rest).2)

/-- The unscanned remainder never grows. -/
theorem scanChunkCore_rest_le : ∀ (inr : Bool) (p : List Char),
    (scanChunkCore inr p).2.length ≤ p.length
  | _, [] => by simp [scanChunkCore]
  | _, [_] => by
    simp only [scanChunkCore]
    split_ifs <;> simp [scanChunkCore]
  | inr, c :: c2 :: rest2 => by
    simp only [scanChunkCore]
    split_ifs with h1 h2 h3 h4
    · have h := scanChunkCore_rest_le inr rest2
      simp only [List.length_cons]
      omega
    · have h := scanChunkCore_rest_le true (c2 :: rest2)
      simp only [List.length_cons] at *
      omega
    · have h := scanChunkCore_rest_le false (c2 :: rest2)
      simp only [List.length_cons] at *
      omega
    · simp
    · have h := scanChunkCore_rest_le inr (c2 :: rest2)
      simp only [List.length_cons] at *
      omega

/-- When the pattern does not begin with a star, the scan consumes at
least one character. -/
theorem scanChunkCore_rest_lt (inr : Bool) (p : List Char) (hne : p ≠ [])
    (hhead : p.head? ≠ some '*') :
    (scanChunkCore inr p).2.length < p.length := by
  cases p with
  | nil => exact absurd rfl hne
  | cons c t =>
    simp only [List.head?_cons, ne_eq, Option.some.injEq] at hhead
    cases t with
    | nil =>
      simp only [scanChunkCore]
      split_ifs <;> simp_all
    | cons c2 rest2 =>
      simp only [scanChunkCore]
      split_ifs with h1 h2 h3 h4
      · have h := scanChunkCore_rest_le inr rest2
        simp only [List.length_cons]
        omega
      · have h := scanChunkCore_rest_le true (c2 :: rest2)
        simp only [List.length_cons] at *
        omega
      · have h := scanChunkCore_rest_le false (c2 :: rest2)
        simp only [List.length_cons] at *
        omega
      · exact absurd h4.1 hhead
      · have h := scanChunkCore_rest_le inr (c2 :: rest2)
        simp only [List.length_cons] at *
        omega

/-- Go `scanChunk`: strip leading stars (remembering whether there were
any), then scan the star-free chunk. -/
def scanChunk (pattern : List Char) : Bool × List Char × List Char :=
  let p := pattern.dropWhile (fun c => c = '*')
  (decide (p.length < pattern.length),
   (scanChunkCore false p).1,
   (scanChunkCore false p).2)

/-- Dropping leading stars never lengthens the pattern. -/
theorem length_dropWhile_star_le (l : List Char) :
    (l.dropWhile (fun c => c = '*')).length ≤ l.length := by
  induction l with
  | nil => simp
  | cons a t ih =>
    by_cases h : a = '*' <;> simp [List.dropWhile_cons, h] <;> omega

/-- Termination measure for `Match`'s `Pattern` loop: each iteration of
the loop consumes at least one pattern character. -/
theorem scanChunk_rest_lt (pattern : List Char) (hne : pattern ≠ []) :
    (scanChunk pattern).2.2.length < pattern.length := by
  simp only [scanChunk]
  by_cases hs : (pattern.dropWhile (fun c => c = '*')).length < pattern.length
  · have := scanChunkCore_rest_le false (pattern.dropWhile (fun c => c = '*'))
    omega
  · cases p : pattern with
    | nil => exact absurd p hne
    | cons a t =>
      subst p
      by_cases ha : a = '*'
      · exfalso
        have hd : (a :: t).dropWhile (fun c => c = '*') =
            t.dropWhile (fun c => c = '*') := by
          simp [List.dropWhile_cons, ha]
        have := length_dropWhile_star_le t
        rw [hd] at hs
        simp only [List.length_cons] at hs
        omega
      · have hd : (a :: t).dropWhile (fun c => c = '*') = a :: t := by
          simp [List.dropWhile_cons, ha]
        rw [hd]
        exact scanChunkCore_rest_lt false (a :: t) (by simp)
          (by simpa using ha)

/-- Result of the star-widening loop inside `Match`. -/
inductive StarRes where
  | found (t : List Char)
  | errStop
  | exhausted
deriving DecidableEq, Repr

/-- The inner loop of `Match` run when a chunk preceded by `*` failed at
the current position: skip one non-separator name character at a time and
retry the chunk; a match that is final must exhaust the name. -/
def starLoop (chunk patRest : List Char) : List Char → StarRes
  | [] => .exhausted
  | sc :: srest =>
    if sc = '/' then .exhausted
    else
      match matchChunk chunk srest with
      | .ok t =>
        if patRest = [] ∧ t ≠ [] then starLoop chunk patRest srest
        else .found t
      | .err => .errStop
      | .nomatch => starLoop chunk patRest srest

/-- Go `path/filepath.Match` on Unix: the `Pattern` loop over
star-separated chunks.  A trailing bare star matches any remainder without
a separator; a chunk match must exhaust the name when it is the last
chunk, and a star may widen the match by skipping non-separator
characters. -/
def matchGo (pattern name : List Char) : GoMatchRes :=
  match pattern with
  | [] => .ok name.isEmpty
  | p0 :: prest =>
    let sc := scanChunk (p0 :: prest)
    let star := sc.1
    let chunk := sc.2.1
    let rest := sc.2.2
    if star = true ∧ chunk = [] then .ok (! name.contains '/')
    else
      match matchChunk chunk name with
      | .ok t =>
        if t = [] ∨ rest ≠ [] then matchGo rest t
        else if star then
          match starLoop chunk rest name with
          | .found t2 => matchGo rest t2
          | .errStop => .err
          | .exhausted => .ok false
        else .ok false
      | .err => .err
      | .nomatch =>
        if star then
          match starLoop chunk rest name with
          | .found t2 => matchGo rest t2
          | .errStop => .err
          | .exhausted => .ok false
        else .ok false
termination_by pattern.length
decreasing_by
  all_goals exact scanChunk_rest_lt _ (by simp)

/-- The call `matched, _ = filepath.Match(pattern, name)` as the filter
performs it: a pattern error leaves `matched` false. -/
def filepathMatchBool (pattern name : String) : Bool :=
  match matchGo pattern.toList name.toList with
  | .ok b => b
  | .err => false

/-- Whether a pattern contains a glob wildcard (`*`, `?`, or a character
class opener). -/
def hasWildcard (p : String) : Bool :=
  p.toList.any (fun c => c = '*' || c = '?' || c = '[')

/-- The glob step shared by both passes of the filter: `matched, _ =
filepath.Match(pat, filename)`, then — only on Windows — a second try on
the cleaned name when the first failed. -/
def patternDirectMatch (pat filename : String)
    (cleanfilename : List Char) : Bool :=
  let m := filepathMatchBool pat filename
  if !m && IsWindows then filepathMatchBool pat (String.mk cleanfilename)
  else m

/-- Go `FilenamePassesIncludeExcludeFilter`: empty lists always pass; the
include pass admits a path matching some include pattern directly (the
Windows-only re-match on the cleaned name is inert on Linux) or having the
pattern as a parent-directory prefix of the cleaned name; the exclude pass
then rejects a path matching any exclude pattern by the same rules. -/
def FilenamePassesIncludeExcludeFilter (filename : String)
    (includePaths excludePaths : List String) : Bool :=
  if includePaths.length = 0 ∧ excludePaths.length = 0 then true
  else
    let cleanfilename := cleanList filename.toList
    let incPass :=
      if includePaths.length > 0 then
        includePaths.any (fun inc =>
          if patternDirectMatch inc filename cleanfilename then true
          else List.isPrefixOf (inc.toList ++ ['/']) cleanfilename)
      else true
    if incPass then
      if excludePaths.length > 0 then
        ! (excludePaths.any (fun ex =>
            patternDirectMatch ex filename cleanfilename ||
              List.isPrefixOf (ex.toList ++ ['/']) cleanfilename))
      else true
    else false

/-! ## Theorems -/

/-- The guarded `ReadSize` update `if n > 0 { ReadSize += int64(n) }` adds
`n` also when `n = 0`. -/
theorem ite_readSize (r : Int) (n : Nat) :
    (if n > 0 then r + (n : Int) else r) = r + (n : Int) := by
  split_ifs with h
  · rfl
  · have hz : n = 0 := Nat.eq_zero_of_not_pos h
    simp [hz]

/-- A `Read` whose underlying read succeeds, with a callback present. -/
theorem readStep_read_ok {κ : Type} (c : Cb κ) (T r : Int) (k : κ) (n : Nat) :
    readStep (some c) T r k n none =
      (r + (n : Int), (c k T (r + (n : Int)) n).1,
        (c k T (r + (n : Int)) n).2, some ⟨T, r + (n : Int), n⟩) := by
  simp [readStep, ite_readSize]

/-- A `Read` whose underlying read returns an error: bytes are counted,
the error is passed through, the callback is not invoked. -/
theorem readStep_read_err {κ : Type} (c? : Option (Cb κ)) (T r : Int)
    (k : κ) (n : Nat) (e : GoError) :
    readStep c? T r k n (some e) = (r + (n : Int), k, some e, none) := by
  cases c? <;> simp [readStep, ite_readSize]

/-- Go `len(s) == 0` on a string is emptiness. -/
theorem string_length_zero_iff (s : String) : s.length = 0 ↔ s = "" := by
  cases s with
  | mk data =>
    simp [String.length, List.length_eq_zero]
    constructor
    · intro h
      simp [h]
    · intro h
      have hd : ({ data := data } : String).data = ("" : String).data := by
        rw [h]
      simpa using hd

/-! ### Claims C8 and C9: the factory's pre-I/O control flow -/

/-- C8.  For every call to `CopyCallbackFile` in which the configured log
destination is non-empty but not an absolute path (with non-empty event
and filename), the factory returns the configuration error immediately:
the result is `configError`, not the `proceed` outcome that performs
`MkdirAll`/`OpenFile`, so no directory is created and no file is opened. -/
theorem relative_logpath_config_error (logPath event filename : String)
    (h1 : logPath ≠ "") (h2 : event ≠ "") (h3 : filename ≠ "")
    (h4 : filepathIsAbs logPath = false) :
    copyCallbackFileSetup logPath event filename =
      FactoryResult.configError "GIT_LFS_PROGRESS must be an absolute path" := by
  simp only [copyCallbackFileSetup]
  rw [if_neg, if_pos]
  · simp [h4]
  · simp only [string_length_zero_iff]
    push_neg
    exact ⟨h1, h3, h2⟩

/-- Witness for C8: a relative destination with non-empty event and
filename yields the configuration error. -/
theorem relative_logpath_config_error_witness :
    copyCallbackFileSetup "rel/logs/progress.log" "download" "a.bin" =
      FactoryResult.configError "GIT_LFS_PROGRESS must be an absolute path" :=
  relative_logpath_config_error "rel/logs/progress.log" "download" "a.bin"
    (by decide) (by decide) (by decide) (by decide)

/-- C9.  The empty-input check in `CopyCallbackFile` runs before the
absolute-path validation: whenever the configured log path, the event, or
the filename is empty, the factory returns the silent no-op triple
`(nil, nil, nil)` — even when the log path is a non-empty relative string
that would otherwise be a configuration error. -/
theorem empty_input_noop_precedes_abs_check (logPath event filename : String)
    (h : logPath = "" ∨ event = "" ∨ filename = "") :
    copyCallbackFileSetup logPath event filename = FactoryResult.noop := by
  simp only [copyCallbackFileSetup]
  rw [if_pos]
  rcases h with h | h | h
  · exact Or.inl (by simp [h])
  · exact Or.inr (Or.inr (by simp [h]))
  · exact Or.inr (Or.inl (by simp [h]))

/-- Witness for C9: an empty filename forces the no-op outcome even
though the configured log path is a non-empty relative string. -/
theorem empty_input_noop_precedes_abs_check_witness :
    copyCallbackFileSetup "rel/logs/progress.log" "download" "" =
      FactoryResult.noop :=
  empty_input_noop_precedes_abs_check "rel/logs/progress.log" "download" ""
    (Or.inr (Or.inr rfl))

/-! ### Claims C5, C2 and C10: the log callback -/

/-- C5.  Each invocation of the callback produced by `CopyCallbackFile`
compares the cumulative count to the last value written: if unchanged it
writes nothing and returns nil; otherwise (when the write succeeds) it
appends exactly the one line
`<event> <index>/<totalFiles> <written>/<total> <filename>\n`, performs
the `Sync` flush, records the new cumulative count, and returns nil —
hence a repeated cumulative total never produces a second line. -/
theorem log_callback_dedup_and_format (event filename : String)
    (index totalFiles : Int) (logPath : String) (ops : FileOps)
    (st : LogCbState) (total written : Int) (cur : Nat) :
    (written = st.prevWritten →
      copyCallbackFileCb event filename index totalFiles logPath ops st
        total written cur = (st, none)) ∧
    (written ≠ st.prevWritten → ops.writeErr = none →
      copyCallbackFileCb event filename index totalFiles logPath ops st
        total written cur =
        ({ prevWritten := written,
           lines := st.lines ++
             [progressLine event index totalFiles written total filename],
           syncs := st.syncs + 1 }, none)) := by
  constructor
  · intro h
    simp [copyCallbackFileCb, h]
  · intro h hw
    simp [copyCallbackFileCb, h, hw, wrapProgressError]

/-- Witness for C5: one changed-total invocation appends exactly the
specification's example line and records the new total; kernel evaluation
confirms the formatted line. -/
theorem log_callback_dedup_and_format_witness :
    copyCallbackFileCb "download" "path/to/file.bin" 2 5 "/tmp/p.log"
      ⟨none, none⟩ ⟨0, [], 0⟩ 10240 4096 4096 =
      ({ prevWritten := 4096,
         lines := ["download 2/5 4096/10240 path/to/file.bin\n"],
         syncs := 1 }, none) := by
  have h := (log_callback_dedup_and_format "download" "path/to/file.bin" 2 5
    "/tmp/p.log" ⟨none, none⟩ ⟨0, [], 0⟩ 10240 4096 4096).2
    (by decide) rfl
  rw [h]
  decide

/-- C2 counterexample: an invocation whose write succeeds but whose
`Sync` flush fails returns nil — the flush failure is silently discarded,
contradicting the claim that it is wrapped and returned. -/
theorem sync_failure_discarded :
    (copyCallbackFileCb "download" "f.bin" 1 2 "/tmp/progress.log"
        ⟨none, some (GoError.mk "sync failed: disk full")⟩
        ⟨0, [], 0⟩ 100 50 50).2 = none ∧
    (⟨none, some (GoError.mk "sync failed: disk full")⟩ : FileOps).syncErr ≠
      none := by
  constructor
  · rfl
  · decide

/-- C2 (amended).  A failure of `file.Write` is wrapped with the event
name and the destination path and returned as the callback's failure; the
result of `file.Sync` is discarded, so the callback's result is the
wrapped write error alone, identical for every `Sync` outcome. -/
theorem write_failure_wrapped (event filename : String)
    (index totalFiles : Int) (logPath : String) (ops : FileOps)
    (st : LogCbState) (total written : Int) (cur : Nat)
    (h : written ≠ st.prevWritten) :
    ((copyCallbackFileCb event filename index totalFiles logPath ops st
        total written cur).2 = wrapProgressError ops.writeErr event logPath) ∧
    (∀ e, ops.writeErr = some e →
      (copyCallbackFileCb event filename index totalFiles logPath ops st
          total written cur).2 =
        some (GoError.mk ("Error writing Git LFS " ++ event ++
          " progress to " ++ logPath ++ ": " ++ e.message))) ∧
    (∀ syncOutcome : Option GoError,
      (copyCallbackFileCb event filename index totalFiles logPath
          ⟨ops.writeErr, syncOutcome⟩ st total written cur).2 =
      (copyCallbackFileCb event filename index totalFiles logPath ops st
          total written cur).2) := by
  refine ⟨?_, ?_, ?_⟩
  · simp [copyCallbackFileCb, h]
  · intro e he
    simp [copyCallbackFileCb, h, he, wrapProgressError]
  · intro syncOutcome
    simp [copyCallbackFileCb, h]

/-- Witness for the amended C2: a failing write is returned wrapped with
the event and the destination path. -/
theorem write_failure_wrapped_witness :
    (copyCallbackFileCb "download" "f.bin" 1 3 "/tmp/p.log"
        ⟨some (GoError.mk "disk full"), some (GoError.mk "sync fail")⟩
        ⟨0, [], 0⟩ 100 10 10).2 =
      wrapProgressError (some (GoError.mk "disk full")) "download"
        "/tmp/p.log" :=
  (write_failure_wrapped "download" "f.bin" 1 3 "/tmp/p.log"
    ⟨some (GoError.mk "disk full"), some (GoError.mk "sync fail")⟩
    ⟨0, [], 0⟩ 100 10 10 (by decide)).1

/-- C10.  When the log-line write fails, the callback still records the
current cumulative count as `prevWritten` before returning the wrapped
error, and the line is not appended; any later invocation with the same
cumulative total is then suppressed by the dedup check, so the failed
line is lost, never retried. -/
theorem failed_line_not_retried (event filename : String)
    (index totalFiles : Int) (logPath : String) (ops : FileOps)
    (st : LogCbState) (total written : Int) (cur : Nat) (e : GoError)
    (hw : written ≠ st.prevWritten) (he : ops.writeErr = some e) :
    ((copyCallbackFileCb event filename index totalFiles logPath ops st
        total written cur).1.prevWritten = written ∧
     (copyCallbackFileCb event filename index totalFiles logPath ops st
        total written cur).1.lines = st.lines ∧
     (copyCallbackFileCb event filename index totalFiles logPath ops st
        total written cur).2 = wrapProgressError (some e) event logPath) ∧
    (∀ (ops2 : FileOps) (total2 : Int) (cur2 : Nat),
      copyCallbackFileCb event filename index totalFiles logPath ops2
        ((copyCallbackFileCb event filename index totalFiles logPath ops st
            total written cur).1) total2 written cur2 =
      ((copyCallbackFileCb event filename index totalFiles logPath ops st
          total written cur).1, none)) := by
  have hcb : copyCallbackFileCb event filename index totalFiles logPath ops
      st total written cur =
      ({ prevWritten := written, lines := st.lines, syncs := st.syncs + 1 },
        wrapProgressError (some e) event logPath) := by
    simp [copyCallbackFileCb, hw, he]
  refine ⟨⟨?_, ?_, ?_⟩, ?_⟩
  · rw [hcb]
  · rw [hcb]
  · rw [hcb]
  · intro ops2 total2 cur2
    rw [hcb]
    simp [copyCallbackFileCb]

/-- Witness for C10: after a failed write for cumulative total 10, a
second invocation with total 10 (and an error-free file) writes nothing
and returns nil. -/
theorem failed_line_not_retried_witness :
    copyCallbackFileCb "download" "f.bin" 1 3 "/tmp/p.log" ⟨none, none⟩
      ((copyCallbackFileCb "download" "f.bin" 1 3 "/tmp/p.log"
          ⟨some (GoError.mk "disk full"), none⟩ ⟨0, [], 0⟩ 100 10 10).1)
      100 10 0 =
    ((copyCallbackFileCb "download" "f.bin" 1 3 "/tmp/p.log"
        ⟨some (GoError.mk "disk full"), none⟩ ⟨0, [], 0⟩ 100 10 10).1,
      none) :=
  (failed_line_not_retried "download" "f.bin" 1 3 "/tmp/p.log"
    ⟨some (GoError.mk "disk full"), none⟩ ⟨0, [], 0⟩ 100 10 10
    (GoError.mk "disk full") (by decide) rfl).2 ⟨none, none⟩ 100 0

/-! ### Claims C1, C3 and C4: the copy loop and the `Read` invariant -/

/-- Running the copy over error-free reads `L` on which the callback
always succeeds advances the state by the byte sum of `L` and appends
exactly the predicted invocation trace, then continues with the remaining
script. -/
theorem copyRun_clean {κ : Type} (c : Cb κ) (T : Int)
    (hc : ∀ k t r n, (c k t r n).2 = none) (L : List Nat) :
    ∀ (r : Int) (k : κ) (w : Int) (cs : List CbCall)
      (rest : List (Nat × Option GoError)),
    ∃ k2, copyRun (some c) T r k w cs (L.map (fun m => (m, none)) ++ rest) =
      copyRun (some c) T (r + (L.sum : Int)) k2 (w + (L.sum : Int))
        (cs ++ callsFrom T r L) rest := by
  induction L with
  | nil =>
    intro r k w cs rest
    exact ⟨k, by simp [callsFrom]⟩
  | cons n L ih =>
    intro r k w cs rest
    obtain ⟨k2, h⟩ := ih (r + (n : Int)) ((c k T (r + (n : Int)) n).1)
      (w + (n : Int)) (cs ++ [⟨T, r + (n : Int), n⟩]) rest
    refine ⟨k2, ?_⟩
    have hstep : copyRun (some c) T r k w cs
        (((n : Nat), (none : Option GoError)) ::
          (L.map (fun m => (m, none)) ++ rest)) =
        copyRun (some c) T (r + (n : Int)) ((c k T (r + (n : Int)) n).1)
          (w + (n : Int)) (cs ++ [⟨T, r + (n : Int), n⟩])
          (L.map (fun m => (m, none)) ++ rest) := by
      simp [copyRun, readStep_read_ok, hc]
    rw [List.map_cons, List.cons_append, hstep, h]
    have h1 : r + (n : Int) + (L.sum : Int) = r + (((n :: L).sum : Nat) : Int) := by
      simp only [List.sum_cons, Nat.cast_add]
      ring
    have h2 : w + (n : Int) + (L.sum : Int) = w + (((n :: L).sum : Nat) : Int) := by
      simp only [List.sum_cons, Nat.cast_add]
      ring
    rw [h1, h2]
    have h3 : cs ++ [(⟨T, r + (n : Int), n⟩ : CbCall)] ++ callsFrom T (r + (n : Int)) L =
        cs ++ callsFrom T r (n :: L) := by
      simp [callsFrom]
    rw [h3]

/-- A copy over error-free reads that ended without an error can be
extended: appending further script continues from the reached state. -/
theorem copyRun_append {κ : Type} (c : Cb κ) (T : Int)
    (hNoEof : ∀ k t r n, (c k t r n).2 ≠ some GoError.eof) (L : List Nat) :
    ∀ (r : Int) (k : κ) (w : Int) (cs : List CbCall)
      (rest : List (Nat × Option GoError)),
    (copyRun (some c) T r k w cs (L.map (fun m => (m, none)))).err = none →
    copyRun (some c) T r k w cs (L.map (fun m => (m, none)) ++ rest) =
      copyRun (some c) T
        (copyRun (some c) T r k w cs (L.map (fun m => (m, none)))).readSize
        (copyRun (some c) T r k w cs (L.map (fun m => (m, none)))).kfinal
        (copyRun (some c) T r k w cs (L.map (fun m => (m, none)))).written
        (copyRun (some c) T r k w cs (L.map (fun m => (m, none)))).calls
        rest := by
  induction L with
  | nil =>
    intro r k w cs rest h
    simp [copyRun]
  | cons n L ih =>
    intro r k w cs rest h
    cases hcerr : (c k T (r + (n : Int)) n).2 with
    | some e =>
      exfalso
      have he : ¬(e = GoError.eof) := fun heq =>
        hNoEof k T (r + (n : Int)) n (heq ▸ hcerr)
      have hstop : (copyRun (some c) T r k w cs
          ((n :: L).map (fun m => (m, none)))).err = some e := by
        simp [copyRun, readStep_read_ok, hcerr, he]
      rw [hstop] at h
      cases h
    | none =>
      have hstep : ∀ (tail : List (Nat × Option GoError)),
          copyRun (some c) T r k w cs
            (((n : Nat), (none : Option GoError)) :: tail) =
          copyRun (some c) T (r + (n : Int)) ((c k T (r + (n : Int)) n).1)
            (w + (n : Int)) (cs ++ [⟨T, r + (n : Int), n⟩]) tail := by
        intro tail
        simp [copyRun, readStep_read_ok, hcerr]
      rw [List.map_cons, List.cons_append, hstep, hstep]
      rw [List.map_cons, hstep] at h
      exact ih _ _ _ _ rest h

/-- C1 (amended).  For every sequence of error-free reads `L` (summing to
`S = L.sum`) followed by a final read that returns `nf` bytes together
with an error `e`, and every callback that never fails: after the full
copy the wrapper's `ReadSize` is `S + nf` — the bytes of the errored read
are counted — while the callback was invoked exactly once per underlying
read that returned a nil error, in read order, with the triple
`(T, cumulative-including-this-read, bytes-of-this-read)`; the errored
read produced no invocation. -/
theorem copy_counts_and_callback_trace {κ : Type} (c : Cb κ) (k : κ)
    (T : Int) (L : List Nat) (nf : Nat) (e : GoError)
    (hc : ∀ k t r n, (c k t r n).2 = none) :
    (CopyWithCallback (some c) T k
        (L.map (fun m => (m, none)) ++ [(nf, some e)])).readSize =
      (L.sum : Int) + (nf : Int) ∧
    (CopyWithCallback (some c) T k
        (L.map (fun m => (m, none)) ++ [(nf, some e)])).written =
      (L.sum : Int) + (nf : Int) ∧
    (CopyWithCallback (some c) T k
        (L.map (fun m => (m, none)) ++ [(nf, some e)])).calls =
      callsFrom T 0 L ∧
    (CopyWithCallback (some c) T k
        (L.map (fun m => (m, none)) ++ [(nf, some e)])).err =
      (if e = GoError.eof then none else some e) := by
  obtain ⟨k2, h⟩ := copyRun_clean c T hc L 0 k 0 [] [(nf, some e)]
  rw [CopyWithCallback, h]
  simp [copyRun, readStep_read_err]

/-- Witness for the amended C1: reads of 3 and 4 bytes followed by a read
returning 5 bytes together with io.EOF give cumulative count 12, two
callback invocations (for the clean reads only), and a clean copy. -/
theorem copy_counts_and_callback_trace_witness :
    (CopyWithCallback
        (some (fun (u : Unit) (_ _ : Int) (_ : Nat) => (u, none))) 10 ()
        ([3, 4].map (fun m => (m, none)) ++ [(5, some GoError.eof)])).readSize
      = 12 ∧
    (CopyWithCallback
        (some (fun (u : Unit) (_ _ : Int) (_ : Nat) => (u, none))) 10 ()
        ([3, 4].map (fun m => (m, none)) ++ [(5, some GoError.eof)])).calls
      = [⟨10, 3, 3⟩, ⟨10, 7, 4⟩] ∧
    (CopyWithCallback
        (some (fun (u : Unit) (_ _ : Int) (_ : Nat) => (u, none))) 10 ()
        ([3, 4].map (fun m => (m, none)) ++ [(5, some GoError.eof)])).err
      = none := by
  have h := copy_counts_and_callback_trace
    (fun (u : Unit) (_ _ : Int) (_ : Nat) => (u, none)) () 10 [3, 4] 5
    GoError.eof (fun _ _ _ _ => rfl)
  exact ⟨h.1.trans (by decide), h.2.2.1.trans (by decide),
    h.2.2.2.trans (by decide)⟩

/-- C1 counterexample: on the script whose single underlying read returns
5 bytes together with io.EOF, the full copy succeeds with cumulative
count 5, yet the callback invocation list is empty — the claim as stated
requires the callback to be invoked (with triple `(10, 5, 5)`) also on a
read that returns bytes together with an error, but `CallbackReader.Read`
invokes it only when the underlying read's error is nil. -/
theorem copy_callback_skipped_on_error_read :
    (CopyWithCallback
        (some (fun (u : Unit) (_ _ : Int) (_ : Nat) => (u, none))) 10 ()
        [(5, some GoError.eof)]).readSize = 5 ∧
    (CopyWithCallback
        (some (fun (u : Unit) (_ _ : Int) (_ : Nat) => (u, none))) 10 ()
        [(5, some GoError.eof)]).err = none ∧
    (CopyWithCallback
        (some (fun (u : Unit) (_ _ : Int) (_ : Nat) => (u, none))) 10 ()
        [(5, some GoError.eof)]).calls = [] ∧
    (CopyWithCallback
        (some (fun (u : Unit) (_ _ : Int) (_ : Nat) => (u, none))) 10 ()
        [(5, some GoError.eof)]).calls ≠ [⟨10, 5, 5⟩] := by
  refine ⟨rfl, rfl, rfl, ?_⟩
  decide

/-- C4.  If, after a copy prefix of error-free reads that produced no
failure, the next underlying read succeeds with `n` bytes but the callback
returns the failure `e`, then that failure is the wrapping read's own
error and the copy stops with it: the bytes of that read are still counted
into the cumulative total (and written), the failing invocation received
the cumulative count including them, and the remaining script `L2` is
never read — the final state does not depend on `L2`.  (The callback is
assumed never to return the reserved io.EOF value.) -/
theorem callback_failure_aborts_copy {κ : Type} (c : Cb κ) (T : Int)
    (k0 k2 : κ) (L1 : List Nat) (n : Nat) (e : GoError)
    (L2 : List (Nat × Option GoError))
    (hNoEof : ∀ k t r m, (c k t r m).2 ≠ some GoError.eof)
    (h1 : (CopyWithCallback (some c) T k0
        (L1.map (fun m => (m, none)))).err = none)
    (h2 : c (CopyWithCallback (some c) T k0
          (L1.map (fun m => (m, none)))).kfinal T
        ((CopyWithCallback (some c) T k0
          (L1.map (fun m => (m, none)))).readSize + (n : Int)) n =
        (k2, some e))
    (h3 : e ≠ GoError.eof) :
    CopyWithCallback (some c) T k0
        (L1.map (fun m => (m, none)) ++ (n, none) :: L2) =
      { readSize := (CopyWithCallback (some c) T k0
            (L1.map (fun m => (m, none)))).readSize + (n : Int),
        kfinal := k2,
        written := (CopyWithCallback (some c) T k0
            (L1.map (fun m => (m, none)))).written + (n : Int),
        calls := (CopyWithCallback (some c) T k0
            (L1.map (fun m => (m, none)))).calls ++
          [⟨T, (CopyWithCallback (some c) T k0
              (L1.map (fun m => (m, none)))).readSize + (n : Int), n⟩],
        err := some e } := by
  have h2a := congrArg Prod.fst h2
  have h2b := congrArg Prod.snd h2
  simp only at h2a h2b
  simp only [CopyWithCallback] at h1 h2a h2b ⊢
  rw [copyRun_append c T hNoEof L1 0 k0 0 [] ((n, none) :: L2) h1]
  simp [copyRun, readStep_read_ok, h2b, h3, h2a]

/-- Witness for C4: a counting callback failing on its second invocation
stops the copy after the read of 4 bytes; the scripted third read of 7
bytes is never issued. -/
theorem callback_failure_aborts_copy_witness :
    CopyWithCallback
        (some (fun (cnt : Nat) (_ _ : Int) (_ : Nat) =>
          (cnt + 1, if cnt + 1 = 2 then some (GoError.mk "boom") else none)))
        10 0 ([3].map (fun m => (m, none)) ++ (4, none) :: [(7, none)]) =
      { readSize := 7, kfinal := 2, written := 7,
        calls := [⟨10, 3, 3⟩, ⟨10, 7, 4⟩],
        err := some (GoError.mk "boom") } := by
  have h := callback_failure_aborts_copy
    (fun (cnt : Nat) (_ _ : Int) (_ : Nat) =>
      (cnt + 1, if cnt + 1 = 2 then some (GoError.mk "boom") else none))
    10 0 2 [3] 4 (GoError.mk "boom") [(7, none)]
    (by
      intro k t r m
      dsimp only
      split <;> simp)
    (by decide) (by decide) (by decide)
  rw [h]
  decide

/-- The `Read` invariant, over an arbitrary script: after the reads in
`L`, `ReadSize` has grown by the byte sum of all of them (errored reads
included), and the invocation trace extends by exactly one triple per
nil-error read, carrying the cumulative count that already includes that
read's bytes. -/
theorem readN_run {κ : Type} (c : Cb κ) (T : Int)
    (L : List (Nat × Option GoError)) :
    ∀ (r : Int) (k : κ) (cs : List CbCall),
    (readN (some c) T r k cs L).1 = r + ((L.map Prod.fst).sum : Int) ∧
    (readN (some c) T r k cs L).2.2 = cs ++ callsSpecE T r L := by
  induction L with
  | nil =>
    intro r k cs
    simp [readN, callsSpecE]
  | cons p L ih =>
    obtain ⟨n, er⟩ := p
    intro r k cs
    cases er with
    | none =>
      have hstep : readN (some c) T r k cs (((n : Nat), (none : Option GoError)) :: L) =
          readN (some c) T (r + (n : Int)) ((c k T (r + (n : Int)) n).1)
            (cs ++ [⟨T, r + (n : Int), n⟩]) L := by
        simp [readN, readStep_read_ok]
      rw [hstep]
      obtain ⟨ihr, ihc⟩ := ih (r + (n : Int)) ((c k T (r + (n : Int)) n).1)
        (cs ++ [⟨T, r + (n : Int), n⟩])
      refine ⟨ihr.trans ?_, ihc.trans ?_⟩
      · simp only [List.map_cons, List.sum_cons, Nat.cast_add]
        ring
      · simp [callsSpecE]
    | some e =>
      have hstep : readN (some c) T r k cs
          (((n : Nat), some e) :: L) =
          readN (some c) T (r + (n : Int)) k cs L := by
        simp [readN, readStep_read_err]
      rw [hstep]
      obtain ⟨ihr, ihc⟩ := ih (r + (n : Int)) k cs
      refine ⟨ihr.trans ?_, ihc.trans ?_⟩
      · simp only [List.map_cons, List.sum_cons, Nat.cast_add]
        ring
      · simp [callsSpecE]

/-- C3.  Invariant of `CallbackReader`: for every script of underlying
read results, after those `Read` calls `ReadSize` equals the sum of the
byte counts they returned (instantiating the script at each prefix gives
the value after N reads, so the count is a monotone prefix sum, never
reset), and each nil-error read's callback invocation carries the
cumulative count that already includes the current read's bytes —
`ReadSize` is updated before the callback runs. -/
theorem readSize_sum_and_callback_order {κ : Type} (c : Cb κ) (k : κ)
    (T : Int) (L : List (Nat × Option GoError)) :
    (readN (some c) T 0 k [] L).1 = ((L.map Prod.fst).sum : Int) ∧
    (readN (some c) T 0 k [] L).2.2 = callsSpecE T 0 L := by
  obtain ⟨hr, hc⟩ := readN_run c T L 0 k []
  refine ⟨hr.trans (by ring), hc.trans (by simp)⟩

/-! ### Claims C6 and C7: the include/exclude path filter -/

/-- Membership in a list forbids length zero. -/
theorem length_ne_zero_of_mem {α : Type} {x : α} {l : List α}
    (h : x ∈ l) : l.length ≠ 0 := by
  cases l with
  | nil => cases h
  | cons a t => simp

/-- On the modelled (Linux) platform the two-step glob match is the plain
`filepath.Match` on the raw name. -/
theorem patternDirectMatch_eq (pat filename : String) (clean : List Char) :
    patternDirectMatch pat filename clean = filepathMatchBool pat filename := by
  simp [patternDirectMatch, IsWindows]

/-- Any path matching some exclude pattern — by the direct glob rule or by
the directory-prefix rule on the cleaned name — is rejected, whatever the
include list says. -/
theorem filter_exclude_member_rejects (filename : String)
    (includePaths excludePaths : List String) (ex : String)
    (hmem : ex ∈ excludePaths)
    (hmatch : filepathMatchBool ex filename = true ∨
      List.isPrefixOf (ex.toList ++ ['/']) (cleanList filename.toList) = true) :
    FilenamePassesIncludeExcludeFilter filename includePaths excludePaths =
      false := by
  simp only [FilenamePassesIncludeExcludeFilter]
  split_ifs with h1
  · exact absurd h1.2 (length_ne_zero_of_mem hmem)
  all_goals
    first
      | rfl
      | (exact absurd (List.length_pos.mpr (List.ne_nil_of_mem hmem))
          (by assumption))
      | (simp only [Bool.not_eq_false']
         refine List.any_eq_true.mpr ⟨ex, hmem, ?_⟩
         simp only [patternDirectMatch_eq]
         rcases hmatch with hm | hm <;> rw [hm] <;> simp)

/-- C6.  Exclude takes precedence over include: for every path and
pattern lists, if the path matches any exclude pattern (directly or by
the directory-prefix rule), `FilenamePassesIncludeExcludeFilter` rejects
it — also when the path matches an include pattern, as in the
specification's example `includes = ["src"]`,
`excludes = ["src/generated"]`, path `"src/generated/x.go"`. -/
theorem exclude_overrides_include (filename : String)
    (includePaths excludePaths : List String) (ex : String)
    (hmem : ex ∈ excludePaths)
    (hmatch : filepathMatchBool ex filename = true ∨
      List.isPrefixOf (ex.toList ++ ['/']) (cleanList filename.toList) = true) :
    FilenamePassesIncludeExcludeFilter filename includePaths excludePaths =
      false :=
  filter_exclude_member_rejects filename includePaths excludePaths ex hmem
    hmatch

/-- Witness for C6: the specification's example — the path lies under the
include pattern `"src"` by the directory-prefix rule, yet the exclude
pattern `"src/generated"` rejects it. -/
theorem exclude_overrides_include_witness :
    FilenamePassesIncludeExcludeFilter "src/generated/x.go" ["src"]
      ["src/generated"] = false :=
  exclude_overrides_include "src/generated/x.go" ["src"] ["src/generated"]
    "src/generated" (by decide) (Or.inr (by decide))

/-- C7.  Directory-prefix rule: a pattern without wildcards whose text
followed by the separator `'/'` is a prefix of the cleaned path counts as
matching — as an include pattern it admits every path beneath the named
directory (with no excludes configured), and as an exclude pattern it
rejects every path beneath it. -/
theorem directory_prefix_rule (filename pat : String)
    (hwild : hasWildcard pat = false)
    (hpre : List.isPrefixOf (pat.toList ++ ['/'])
      (cleanList filename.toList) = true) :
    (∀ includePaths : List String, pat ∈ includePaths →
      FilenamePassesIncludeExcludeFilter filename includePaths [] = true) ∧
    (∀ (includePaths excludePaths : List String), pat ∈ excludePaths →
      FilenamePassesIncludeExcludeFilter filename includePaths excludePaths =
        false) := by
  constructor
  · intro includePaths hmem
    simp only [FilenamePassesIncludeExcludeFilter]
    split_ifs with h1
    · rfl
    all_goals
      first
        | rfl
        | (exact absurd (List.length_pos.mpr (List.ne_nil_of_mem hmem))
            (by assumption))
        | (exact absurd
            (List.any_eq_true.mpr ⟨pat, hmem, by
              simp only [patternDirectMatch_eq]
              split_ifs <;> first | rfl | exact hpre⟩)
            (by assumption))
        | simp_all
  · intro includePaths excludePaths hmem
    exact filter_exclude_member_rejects filename includePaths excludePaths
      pat hmem (Or.inr hpre)

/-- Witness for C7: with `includes = ["docs"]` and no wildcard, the path
`"docs/sub/file.txt"` is admitted; with `excludes = ["docs"]` it is
rejected. -/
theorem directory_prefix_rule_witness :
    FilenamePassesIncludeExcludeFilter "docs/sub/file.txt" ["docs"] [] =
      true ∧
    FilenamePassesIncludeExcludeFilter "docs/sub/file.txt" [] ["docs"] =
      false := by
  have h := directory_prefix_rule "docs/sub/file.txt" "docs" (by decide)
    (by decide)
  exact ⟨h.1 ["docs"] (by decide), h.2 [] ["docs"] (by decide)⟩

end LfsUtil
